import Mathlib

/-!
Verification development for the pytorch-playground notebooks
(EncoderOnlyTrans.ipynb, Transformer.ipynb, DecoderOnlyTrans.ipynb).

The notebooks build minimal Transformer variants on top of torch tensors.
We embed the relevant code shallowly:

* a 2-D float tensor is a `Tensor2`: explicit row/column counts together with
  a real-valued entry function (entries outside the advertised bounds are
  junk and never inspected by any theorem);
* torch operations that can raise shape errors (`+` with broadcasting,
  `nn.Linear` on a flattened vector, `.item()` on a multi-element result)
  return `Option`/are modelled with explicit shape checks, matching torch's
  broadcasting and shape rules at the granularity the notebooks exercise;
* float arithmetic is embedded as exact real arithmetic (`Real.sin`,
  `Real.exp`, `Real.sqrt`, `rpow`);
* the token-level generation loops are embedded as structurally recursive
  functions over `List ℕ`, parameterised by the next-token function
  (`argmax` applied to the model's logits), which covers every setting of
  the model weights.
-/

/-- A 2-dimensional tensor: row count, column count, and entries. -/
structure Tensor2 where
  rows : ℕ
  cols : ℕ
  entry : ℕ → ℕ → ℝ

noncomputable section

/-- Slicing `A[:r, :]` — slicing a 2-D tensor to its first `r` rows (Python slicing
clamps, so the result has `min r A.rows` rows). -/
def sliceRows (A : Tensor2) (r : ℕ) : Tensor2 :=
  ⟨min r A.rows, A.cols, A.entry⟩

/-- Elementwise `+` on 2-D tensors with torch broadcasting: each dimension
must agree or one of the two sizes must be 1; a size-1 dimension is indexed
at 0 and stretched to the other size.  Returns `none` on a shape mismatch
(torch raises a RuntimeError). -/
def tensorAdd (A B : Tensor2) : Option Tensor2 :=
  if (A.rows = B.rows ∨ A.rows = 1 ∨ B.rows = 1) ∧
     (A.cols = B.cols ∨ A.cols = 1 ∨ B.cols = 1) then
    some ⟨(if A.rows = 1 then B.rows else A.rows),
          (if A.cols = 1 then B.cols else A.cols),
          fun i j =>
            A.entry (if A.rows = 1 then 0 else i) (if A.cols = 1 then 0 else j) +
            B.entry (if B.rows = 1 then 0 else i) (if B.cols = 1 then 0 else j)⟩
  else none

/-- Torch `nn.Linear(d_in, d_out, bias=False)` applied to a 2-D input `X` of
shape `[n, d_in]`: result `X · Wᵀ` of shape `[n, d_out]`.  The weight `W`
is indexed `W out_feature in_feature` as in torch.  (torch additionally
requires `X.cols = d_in`; every call site in the notebooks satisfies it.) -/
def linearNB (d_in d_out : ℕ) (W : ℕ → ℕ → ℝ) (X : Tensor2) : Tensor2 :=
  ⟨X.rows, d_out, fun i o => ∑ t ∈ Finset.range d_in, X.entry i t * W o t⟩

/-- Torch `torch.matmul(A, B)` for 2-D tensors (inner dimension `A.cols`;
torch additionally requires `A.cols = B.rows`, satisfied at every call
site in the notebooks). -/
def matmul (A B : Tensor2) : Tensor2 :=
  ⟨A.rows, B.cols, fun i j => ∑ t ∈ Finset.range A.cols, A.entry i t * B.entry t j⟩

/-- Torch `torch.matmul(q, k.transpose(0, 1))` — row-by-row dot products. -/
def matmulT (q k : Tensor2) : Tensor2 :=
  ⟨q.rows, k.rows, fun i j => ∑ t ∈ Finset.range q.cols, q.entry i t * k.entry j t⟩

/-- Dividing every entry of a tensor by a scalar. -/
def divScalar (A : Tensor2) (c : ℝ) : Tensor2 :=
  ⟨A.rows, A.cols, fun i j => A.entry i j / c⟩

/-- Torch `scaled_sims.masked_fill(mask=mask, value=-1e9)`: entries whose mask bit
is `true` are replaced by the sentinel `-1e9`. -/
def maskedFill (S : Tensor2) (mask : ℕ → ℕ → Bool) : Tensor2 :=
  ⟨S.rows, S.cols, fun i j => if mask i j then -(10 ^ 9 : ℝ) else S.entry i j⟩

/-- Torch `F.softmax(S, dim=1)`: each row is normalised by the sum of the
exponentials of its entries. -/
def softmaxRows (S : Tensor2) : Tensor2 :=
  ⟨S.rows, S.cols, fun i j =>
    Real.exp (S.entry i j) / ∑ t ∈ Finset.range S.cols, Real.exp (S.entry i t)⟩

/-- Torch `torch.cat([A, B], dim=1)` — horizontal concatenation. -/
def hcat (A B : Tensor2) : Tensor2 :=
  ⟨A.rows, A.cols + B.cols, fun i j =>
    if j < A.cols then A.entry i j else B.entry i (j - A.cols)⟩

/-- Torch `.flatten()` of a 2-D tensor in row-major order: the value vector and
its length. -/
def flattenT (A : Tensor2) : (ℕ → ℝ) × ℕ :=
  (fun t => A.entry (t / A.cols) (t % A.cols), A.rows * A.cols)

/-- Torch `nn.Linear(d_in, d_out)` (with bias) applied to a flattened 1-D input of
length `n`; torch requires `n = d_in` exactly (no broadcasting for the
matrix-vector product), otherwise it raises a shape error. -/
def linear1d (d_in d_out : ℕ) (W : ℕ → ℕ → ℝ) (b : ℕ → ℝ)
    (x : ℕ → ℝ) (n : ℕ) : Option (ℕ → ℝ) :=
  if n = d_in then
    some (fun o => (∑ t ∈ Finset.range d_in, W o t * x t) + b o)
  else none

/-- Torch `nn.Linear(d_in, d_out)` (with bias) on a 2-D input (used for the final
`fc` layer of the decoder-only and encoder–decoder models; its input always
has exactly `d_in` columns at the call sites). -/
def linearB (d_in d_out : ℕ) (W : ℕ → ℕ → ℝ) (b : ℕ → ℝ) (X : Tensor2) : Tensor2 :=
  ⟨X.rows, d_out, fun i o => (∑ t ∈ Finset.range d_in, W o t * X.entry i t) + b o⟩

/-- Torch `nn.Embedding` lookup: a token-id list becomes the matrix of the
corresponding embedding rows (`we token_id feature`). -/
def embed (we : ℕ → ℕ → ℝ) (d_model : ℕ) (token_ids : List ℕ) : Tensor2 :=
  ⟨token_ids.length, d_model, fun i j => we (token_ids.getD i 0) j⟩

/-! ### PositionEncoding (identical class in all three notebooks) -/

/-- The `div_term` of `PositionEncoding.__init__`: the `i`-th entry of
`torch.tensor(10000.)**(embedding_index / d_model)` where
`embedding_index = [0., 2., 4., …]`, i.e. `10000 ^ (2i / d_model)`
(real exponentiation). -/
def div_term (d_model i : ℕ) : ℝ :=
  (10000 : ℝ) ^ (((2 * i : ℕ) : ℝ) / (d_model : ℝ))

/-- The constructor `PositionEncoding.__init__`: the precomputed `max_len × d_model` table
`pe`.  The slice assignment `pe[:, 0::2] = sin(position / div_term)` fills
column `2i` with `sin(pos / div_term i)` and `pe[:, 1::2] = cos(…)` fills
column `2i+1` with `cos(pos / div_term i)`.  For odd `d_model` the second
assignment is a shape mismatch (`⌊d/2⌋` slots for `⌈d/2⌉` columns, as the
source comment notes), so construction fails. -/
def PositionEncoding.init (d_model max_len : ℕ) : Option Tensor2 :=
  if d_model % 2 = 0 then
    some ⟨max_len, d_model, fun pos j =>
      if j % 2 = 0 then Real.sin ((pos : ℝ) / div_term d_model (j / 2))
      else Real.cos ((pos : ℝ) / div_term d_model (j / 2))⟩
  else none

/-- The method `PositionEncoding.forward`: `word_embeddings + self.pe[:L, :]` where
`L = word_embeddings.size(0)` — a broadcasting tensor addition. -/
def PositionEncoding.forward (pe : Tensor2) (word_embeddings : Tensor2) : Option Tensor2 :=
  tensorAdd word_embeddings (sliceRows pe word_embeddings.rows)

end

/-! ### Causal mask construction

`torch.tril(torch.ones(L, L)) == 0`.  `torch.ones`/`torch.tril` are
float-valued with exact integer entries 0 and 1; we transcribe the entries
over `ℕ` so the `== 0` comparison stays decidable. -/

/-- Entries of `torch.ones(m, n)`. -/
def onesEntry (m n : ℕ) : ℕ → ℕ → ℕ := fun _ _ => 1

/-- Entries of `torch.tril(A)`: the lower triangle (diagonal included) of
`A`, zero strictly above the diagonal. -/
def trilEntry (A : ℕ → ℕ → ℕ) : ℕ → ℕ → ℕ :=
  fun i j => if j ≤ i then A i j else 0

/-- The mask built in `DecoderOnlyTransformer.forward` and
`Decoder.forward`: `torch.tril(torch.ones(L, L)) == 0`. -/
def causalMask (L : ℕ) : ℕ → ℕ → Bool :=
  fun i j => trilEntry (onesEntry L L) i j == 0

noncomputable section

/-! ### Attention -/

/-- The three bias-free projection layers of an `Attention` module. -/
structure AttnWeights where
  Wq : ℕ → ℕ → ℝ
  Wk : ℕ → ℕ → ℝ
  Wv : ℕ → ℕ → ℝ

/-- The scaled similarity scores of `Attention.forward`:
`q = W_q(eq)`, `k = W_k(ek)`, `sims = q·kᵀ`,
`scaled_sims = sims / (k.size(1) ** 0.5)` (and `k.size(1) = d_model`). -/
def scaledSims (d_model : ℕ) (w : AttnWeights) (eq ek : Tensor2) : Tensor2 :=
  let q := linearNB d_model d_model w.Wq eq
  let k := linearNB d_model d_model w.Wk ek
  divScalar (matmulT q k) (Real.sqrt (k.cols : ℝ))

/-- The scores after the optional masking step of
`EncoderOnlyTrans.ipynb`/`Transformer.ipynb`'s `Attention.forward`:
`if mask is not None: scaled_sims = scaled_sims.masked_fill(mask, -1e9)`. -/
def maskStep (S : Tensor2) (mask : Option (ℕ → ℕ → Bool)) : Tensor2 :=
  match mask with
  | none => S
  | some m => maskedFill S m

/-- The post-softmax attention weights (`attention_percents`) of
`Attention.forward`. -/
def attentionPercents (d_model : ℕ) (w : AttnWeights) (eq ek : Tensor2)
    (mask : Option (ℕ → ℕ → Bool)) : Tensor2 :=
  softmaxRows (maskStep (scaledSims d_model w eq ek) mask)

/-- The method `Attention.forward` as written in `EncoderOnlyTrans.ipynb` and
`Transformer.ipynb` (the two are character-identical): project, score,
scale, mask only when a mask is given, softmax, aggregate. -/
def Attention.forward (d_model : ℕ) (w : AttnWeights) (eq ek ev : Tensor2)
    (mask : Option (ℕ → ℕ → Bool)) : Tensor2 :=
  matmul (attentionPercents d_model w eq ek mask) (linearNB d_model d_model w.Wv ev)

/-- The method `Attention.forward` as written in `DecoderOnlyTrans.ipynb`: identical
except that `mask = mask.to(device)` is executed *before* the
`if mask is not None` test, so a call without a mask raises
(`AttributeError` on `None`); with a mask the test is then always true and
the masked path is taken. -/
def DecAttention.forward (d_model : ℕ) (w : AttnWeights) (eq ek ev : Tensor2)
    (mask : Option (ℕ → ℕ → Bool)) : Option Tensor2 :=
  match mask with
  | none => none
  | some m => some (Attention.forward d_model w eq ek ev (some m))

/-! ### MultiHeadAttention and EncoderOnlyTransformer (EncoderOnlyTrans.ipynb) -/

/-- The method `MultiHeadAttention.forward`: run every head on the same inputs,
concatenate the per-head outputs along `dim=1` (each of full width
`d_model` — the source notes this is "not the traditional approach"), and
project with `fc : head*d_model → d_model`. -/
def MultiHeadAttention.forward (d_model : ℕ) (heads : List AttnWeights)
    (fcW : ℕ → ℕ → ℝ) (fcB : ℕ → ℝ) (eq ek ev : Tensor2)
    (mask : Option (ℕ → ℕ → Bool)) : Tensor2 :=
  let agg_attention_values := heads.map fun h => Attention.forward d_model h eq ek ev mask
  let agg :=
    match agg_attention_values with
    | [] => ⟨eq.rows, 0, fun _ _ => 0⟩
    | t :: ts => ts.foldl hcat t
  linearB (heads.length * d_model) d_model fcW fcB agg

/-- The trainable state of `EncoderOnlyTransformer` (its `pe` buffer is
kept as a field; the theorems constrain it by `PositionEncoding.init`). -/
structure EncOnlyParams where
  d_model : ℕ
  max_len : ℕ
  we : ℕ → ℕ → ℝ
  pe : Tensor2
  heads : List AttnWeights
  mhaFcW : ℕ → ℕ → ℝ
  mhaFcB : ℕ → ℝ
  clsW : ℕ → ℕ → ℝ
  clsB : ℕ → ℝ

/-- The method `EncoderOnlyTransformer.forward`: embed, add position encodings,
multi-head self-attention without a mask, residual add, flatten, and the
classification layer `cls : max_len*d_model → 2` (which requires its input
vector to have length exactly `max_len*d_model`). -/
def EncoderOnlyTransformer.forward (p : EncOnlyParams) (token_ids : List ℕ) :
    Option (ℕ → ℝ) :=
  let word_embeddings := embed p.we p.d_model token_ids
  match PositionEncoding.forward p.pe word_embeddings with
  | none => none
  | some position_encoded =>
    let sav := MultiHeadAttention.forward p.d_model p.heads p.mhaFcW p.mhaFcB
      position_encoded position_encoded position_encoded none
    match tensorAdd position_encoded sav with
    | none => none
    | some residual =>
      let cls_input := flattenT residual
      linear1d (p.max_len * p.d_model) 2 p.clsW p.clsB cls_input.1 cls_input.2

/-! ### Encoder, Decoder and Transformer (Transformer.ipynb) -/

/-- The method `Encoder.forward`: embed, add position encodings, self-attention with
`mask=None`, residual add. -/
def Encoder.forward (d_model : ℕ) (we : ℕ → ℕ → ℝ) (pe : Tensor2)
    (attn : AttnWeights) (token_ids : List ℕ) : Option Tensor2 :=
  let word_embeddings := embed we d_model token_ids
  match PositionEncoding.forward pe word_embeddings with
  | none => none
  | some position_encoded =>
    let sav := Attention.forward d_model attn
      position_encoded position_encoded position_encoded none
    tensorAdd position_encoded sav

/-- The method `Decoder.forward`: embed, add position encodings, causally masked
self-attention, residual add, then encoder–decoder attention whose *query
input is `position_encoded`* (key/value: the encoder outputs, `mask=None`),
and a final residual add of the cross-attention values onto the
self-attention residual. -/
def Decoder.forward (d_model : ℕ) (we : ℕ → ℕ → ℝ) (pe : Tensor2)
    (self_attention encoder_decoder_attention : AttnWeights)
    (token_ids : List ℕ) (embeddings_for_k embeddings_for_v : Tensor2) :
    Option Tensor2 :=
  let word_embeddings := embed we d_model token_ids
  match PositionEncoding.forward pe word_embeddings with
  | none => none
  | some position_encoded =>
    let mask := causalMask token_ids.length
    let sav := Attention.forward d_model self_attention
      position_encoded position_encoded position_encoded (some mask)
    match tensorAdd position_encoded sav with
    | none => none
    | some residual_connection_values =>
      let cav := Attention.forward d_model encoder_decoder_attention
        position_encoded embeddings_for_k embeddings_for_v none
      tensorAdd cav residual_connection_values

/-- The decoder block as the spec describes it ("cross-attention (query =
residual output, key/value = encoder outputs, no mask)"): identical to
`Decoder.forward` except that the cross-attention query input is the
self-attention residual output.  Declared only to be compared against
`Decoder.forward`. -/
def DecoderSpec.forward (d_model : ℕ) (we : ℕ → ℕ → ℝ) (pe : Tensor2)
    (self_attention encoder_decoder_attention : AttnWeights)
    (token_ids : List ℕ) (embeddings_for_k embeddings_for_v : Tensor2) :
    Option Tensor2 :=
  let word_embeddings := embed we d_model token_ids
  match PositionEncoding.forward pe word_embeddings with
  | none => none
  | some position_encoded =>
    let mask := causalMask token_ids.length
    let sav := Attention.forward d_model self_attention
      position_encoded position_encoded position_encoded (some mask)
    match tensorAdd position_encoded sav with
    | none => none
    | some residual_connection_values =>
      let cav := Attention.forward d_model encoder_decoder_attention
        residual_connection_values embeddings_for_k embeddings_for_v none
      tensorAdd cav residual_connection_values

/-- The trainable state of the encoder–decoder `Transformer`. -/
structure TransformerParams where
  num_tokens : ℕ
  d_model : ℕ
  max_len : ℕ
  encWe : ℕ → ℕ → ℝ
  encPe : Tensor2
  encAttn : AttnWeights
  decWe : ℕ → ℕ → ℝ
  decPe : Tensor2
  decSelfAttn : AttnWeights
  decCrossAttn : AttnWeights
  fcW : ℕ → ℕ → ℝ
  fcB : ℕ → ℝ

end

/-- The index lookup `torch.where(token_ids == token_to_id_spa["<SOS>"])[0]` with
`token_to_id_spa["<SOS>"] = 0`: the (ascending) list of positions holding
the token id 0. -/
def whereEqSOS (token_ids : List ℕ) : List ℕ :=
  (List.range token_ids.length).filter fun i => token_ids.getD i 1 == 0

noncomputable section

/-- The body of `Transformer.forward` after `end_idx` has been extracted:
encoder on `token_ids[:end_idx]`, decoder on `token_ids[end_idx:]` with the
encoder output as keys and values, then the `fc` projection. -/
def Transformer.body (p : TransformerParams) (token_ids : List ℕ)
    (end_idx : ℕ) : Option Tensor2 :=
  match Encoder.forward p.d_model p.encWe p.encPe p.encAttn
      (token_ids.take end_idx) with
  | none => none
  | some contextualised_embeddings =>
    match Decoder.forward p.d_model p.decWe p.decPe p.decSelfAttn p.decCrossAttn
        (token_ids.drop end_idx) contextualised_embeddings contextualised_embeddings with
    | none => none
    | some residual_connection_values =>
      some (linearB p.d_model p.num_tokens p.fcW p.fcB residual_connection_values)

/-- The method `Transformer.forward`: `end_idx = torch.where(token_ids == 0)[0].item()`
(`.item()` raises unless the index tensor has exactly one element), then the
encoder/decoder split at `end_idx`. -/
def Transformer.forward (p : TransformerParams) (token_ids : List ℕ) :
    Option Tensor2 :=
  match whereEqSOS token_ids with
  | [end_idx] => Transformer.body p token_ids end_idx
  | _ => none

end

/-! ### The autoregressive generation loops (token level)

The loops are embedded over `List ℕ`, parameterised by the next-token
function `nextTok` (in the notebooks: `argmax` of the model's logits at the
last position, for the current running sequence).  Quantifying over
`nextTok` covers every setting of the model weights. -/

/-- The generation loop of the *pre-training* cell of
`DecoderOnlyTrans.ipynb` (`for i in range(input_length, max_len)`), with
the iteration count as fuel.  Note the update
`predicted_ids = torch.cat((predicted_id, predicted_ids))`: the newly
generated token is *prepended* to the emitted list. -/
def genStepsPre (nextTok : List ℕ → ℕ) (eos : ℕ) :
    ℕ → List ℕ → ℕ → List ℕ → List ℕ × List ℕ
  | 0, model_input, _, predicted_ids => (model_input, predicted_ids)
  | n + 1, model_input, predicted_id, predicted_ids =>
    if predicted_id = eos then (model_input, predicted_ids)
    else
      let mi := model_input ++ [predicted_id]
      let pid := nextTok mi
      genStepsPre nextTok eos n mi pid (pid :: predicted_ids)

/-- The generation loop of the two *post-training* cells of
`DecoderOnlyTrans.ipynb`: identical except for
`predicted_ids = torch.cat((predicted_ids, predicted_id))` — the newly
generated token is *appended*. -/
def genStepsPost (nextTok : List ℕ → ℕ) (eos : ℕ) :
    ℕ → List ℕ → ℕ → List ℕ → List ℕ × List ℕ
  | 0, model_input, _, predicted_ids => (model_input, predicted_ids)
  | n + 1, model_input, predicted_id, predicted_ids =>
    if predicted_id = eos then (model_input, predicted_ids)
    else
      let mi := model_input ++ [predicted_id]
      let pid := nextTok mi
      genStepsPost nextTok eos n mi pid (predicted_ids ++ [pid])

/-- Pre-training generation cell: first token from the prompt, then the
loop over `range(input_length, max_len)`.  Returns the final running
sequence `model_input` and the emitted list `predicted_ids`. -/
def generatePre (nextTok : List ℕ → ℕ) (eos max_len : ℕ) (prompt : List ℕ) :
    List ℕ × List ℕ :=
  let predicted_id := nextTok prompt
  genStepsPre nextTok eos (max_len - prompt.length) prompt predicted_id [predicted_id]

/-- Post-training generation cells: same driver with the appending loop. -/
def generatePost (nextTok : List ℕ → ℕ) (eos max_len : ℕ) (prompt : List ℕ) :
    List ℕ × List ℕ :=
  let predicted_id := nextTok prompt
  genStepsPost nextTok eos (max_len - prompt.length) prompt predicted_id [predicted_id]

/-- The loop of `Transformer.generate` (`for i in range(self.max_len-1)`):
the freshly predicted token is appended to `target_token_ids` *before* the
`<EOS>` test. -/
def genStepsT (nextTok : List ℕ → ℕ) (eos : ℕ) : ℕ → List ℕ → ℕ → List ℕ
  | 0, target_token_ids, _ => target_token_ids
  | n + 1, target_token_ids, prediction_id =>
    let t := target_token_ids ++ [prediction_id]
    if prediction_id = eos then t
    else genStepsT nextTok eos n t (nextTok t)

/-- The method `Transformer.generate` at token level: the decoder input starts as
`[<SOS>]` (id 0), the first prediction is made from it, and the loop runs
for at most `max_len - 1` iterations.  `nextTok` closes over the fixed
encoder context of the source sentence. -/
def Transformer.generate (nextTok : List ℕ → ℕ) (eos max_len : ℕ) : List ℕ :=
  let target_token_ids := [0]
  genStepsT nextTok eos (max_len - 1) target_token_ids (nextTok target_token_ids)

/-! ## Helper lemmas -/

theorem PositionEncoding.init_shape {d_model max_len : ℕ} {pe : Tensor2}
    (h : PositionEncoding.init d_model max_len = some pe) :
    pe.rows = max_len ∧ pe.cols = d_model := by
  unfold PositionEncoding.init at h
  split at h
  · cases h; exact ⟨rfl, rfl⟩
  · cases h

theorem genStepsPre_input_length (f : List ℕ → ℕ) (e : ℕ) :
    ∀ (n : ℕ) (mi : List ℕ) (pid : ℕ) (ids : List ℕ),
      (genStepsPre f e n mi pid ids).1.length ≤ mi.length + n := by
  intro n
  induction n with
  | zero => intro mi pid ids; simp [genStepsPre]
  | succ n ih =>
    intro mi pid ids
    simp only [genStepsPre]
    split
    · simp
    · have h := ih (mi ++ [pid]) (f (mi ++ [pid])) (f (mi ++ [pid]) :: ids)
      simp only [List.length_append, List.length_cons, List.length_nil] at h
      omega

theorem genStepsPost_input_length (f : List ℕ → ℕ) (e : ℕ) :
    ∀ (n : ℕ) (mi : List ℕ) (pid : ℕ) (ids : List ℕ),
      (genStepsPost f e n mi pid ids).1.length ≤ mi.length + n := by
  intro n
  induction n with
  | zero => intro mi pid ids; simp [genStepsPost]
  | succ n ih =>
    intro mi pid ids
    simp only [genStepsPost]
    split
    · simp
    · have h := ih (mi ++ [pid]) (f (mi ++ [pid])) (ids ++ [f (mi ++ [pid])])
      simp only [List.length_append, List.length_cons, List.length_nil] at h
      omega

theorem genStepsT_length (f : List ℕ → ℕ) (e : ℕ) :
    ∀ (n : ℕ) (t : List ℕ) (pid : ℕ),
      (genStepsT f e n t pid).length ≤ t.length + n := by
  intro n
  induction n with
  | zero => intro t pid; simp [genStepsT]
  | succ n ih =>
    intro t pid
    simp only [genStepsT]
    split
    · simp
    · have h := ih (t ++ [pid]) (f (t ++ [pid]))
      simp only [List.length_append, List.length_cons, List.length_nil] at h
      omega

/-! ## Claim C5 -/

/-- Claim C5: in the decoder-only variant's attention head, a call with the
mask argument absent fails (the mask tensor is moved to a device before the
`None` check), instead of skipping the suppression step; with a mask
present it computes the same masked attention as the other variants. -/
theorem decoder_only_attention_fails_without_mask
    (d_model : ℕ) (w : AttnWeights) (eq ek ev : Tensor2) :
    DecAttention.forward d_model w eq ek ev none = none ∧
    ∀ m, DecAttention.forward d_model w eq ek ev (some m) =
      some (Attention.forward d_model w eq ek ev (some m)) :=
  ⟨rfl, fun _ => rfl⟩

/-! ## Claim C8 -/

/-- Claim C8: every autoregressive generation loop terminates (the embedded
loops are structurally recursive total functions), and the running token
sequence never grows beyond `max_len` tokens, whether or not `<EOS>` is ever
produced: the two decoder-only loops for prompts of length at most
`max_len`, and the `Transformer.generate` target sequence for `max_len ≥ 1`. -/
theorem generation_never_exceeds_max_len (nextTok : List ℕ → ℕ)
    (eos max_len : ℕ) (prompt : List ℕ)
    (hp : prompt.length ≤ max_len) (hm : 1 ≤ max_len) :
    (generatePre nextTok eos max_len prompt).1.length ≤ max_len ∧
    (generatePost nextTok eos max_len prompt).1.length ≤ max_len ∧
    (Transformer.generate nextTok eos max_len).length ≤ max_len := by
  refine ⟨?_, ?_, ?_⟩
  · have h := genStepsPre_input_length nextTok eos (max_len - prompt.length)
      prompt (nextTok prompt) [nextTok prompt]
    simp only [generatePre]
    omega
  · have h := genStepsPost_input_length nextTok eos (max_len - prompt.length)
      prompt (nextTok prompt) [nextTok prompt]
    simp only [generatePost]
    omega
  · have h := genStepsT_length nextTok eos (max_len - 1) [0] (nextTok [0])
    simp only [Transformer.generate]
    simp only [List.length_cons, List.length_nil] at h
    omega

/-- Witness for claim C8 at a concrete prompt, next-token function and
bound. -/
theorem generation_never_exceeds_max_len_witness :
    (generatePre (fun _ => 3) 4 6 [0, 1, 2, 4]).1.length ≤ 6 ∧
    (generatePost (fun _ => 3) 4 6 [0, 1, 2, 4]).1.length ≤ 6 ∧
    (Transformer.generate (fun _ => 3) 5 5).length ≤ 5 := by
  refine ⟨(generation_never_exceeds_max_len (fun _ => 3) 4 6 [0, 1, 2, 4]
    (by decide) (by decide)).1,
    (generation_never_exceeds_max_len (fun _ => 3) 4 6 [0, 1, 2, 4]
    (by decide) (by decide)).2.1, ?_⟩
  exact (generation_never_exceeds_max_len (fun _ => 3) 5 5 [] (by decide) (by decide)).2.2

/-! ## Claim C4 -/

/-- A next-token function realising three generation steps with distinct
tokens 3, 0, 4 from the notebook's prompt `[0, 1, 2, 4]` ("what is
statquest <EOS>") with `<EOS> = 4` and `max_len = 6`. -/
def c4NextTok : List ℕ → ℕ :=
  fun xs => if xs.length = 4 then 3 else if xs.length = 5 then 0 else 4

/-- Claim C4: the post-training generation cells emit the generated tokens
in generation order (`[3, 0, 4]` here), but the pre-training cell prepends
each new token (`torch.cat((predicted_id, predicted_ids))`) and therefore
emits the same generation run in *reverse* order (`[4, 0, 3]`), refuting
the claim for that loop. -/
theorem pre_training_loop_emits_reversed :
    generatePost c4NextTok 4 6 [0, 1, 2, 4] = ([0, 1, 2, 4, 3, 0], [3, 0, 4]) ∧
    generatePre c4NextTok 4 6 [0, 1, 2, 4] = ([0, 1, 2, 4, 3, 0], [4, 0, 3]) := by
  decide

/-! ## Claims C7 and C2 -/

theorem softmaxRows_nonneg (S : Tensor2) (i j : ℕ) :
    0 ≤ (softmaxRows S).entry i j :=
  div_nonneg (Real.exp_pos _).le
    (Finset.sum_nonneg fun t _ => (Real.exp_pos (S.entry i t)).le)

theorem softmaxRows_sum_pos (S : Tensor2) (h : 1 ≤ S.cols) (i : ℕ) :
    0 < ∑ t ∈ Finset.range S.cols, Real.exp (S.entry i t) :=
  Finset.sum_pos (fun t _ => Real.exp_pos _)
    (Finset.nonempty_range_iff.mpr (by omega))

theorem softmaxRows_row_sum (S : Tensor2) (h : 1 ≤ S.cols) (i : ℕ) :
    ∑ j ∈ Finset.range S.cols, (softmaxRows S).entry i j = 1 := by
  have hpos := softmaxRows_sum_pos S h i
  simp only [softmaxRows]
  rw [← Finset.sum_div]
  exact div_self hpos.ne'

theorem maskStep_cols (S : Tensor2) (mask : Option (ℕ → ℕ → Bool)) :
    (maskStep S mask).cols = S.cols := by
  cases mask <;> rfl

/-- Claim C7: for every input sequence, every weight setting and every (or
no) mask, the post-softmax attention weights of each query position over
the key positions are all non-negative and sum to 1, and each row of the
attention output is the corresponding weighted combination of the projected
value rows — a convex combination. -/
theorem attention_rows_are_convex_combinations
    (d_model : ℕ) (w : AttnWeights) (eq ek ev : Tensor2)
    (mask : Option (ℕ → ℕ → Bool)) (hk : 1 ≤ ek.rows) (i : ℕ) :
    (∀ j, 0 ≤ (attentionPercents d_model w eq ek mask).entry i j) ∧
    (∑ j ∈ Finset.range ek.rows, (attentionPercents d_model w eq ek mask).entry i j) = 1 ∧
    (∀ c, (Attention.forward d_model w eq ek ev mask).entry i c =
      ∑ j ∈ Finset.range ek.rows, (attentionPercents d_model w eq ek mask).entry i j *
        (linearNB d_model d_model w.Wv ev).entry j c) := by
  have hcols : (maskStep (scaledSims d_model w eq ek) mask).cols = ek.rows := by
    rw [maskStep_cols]; rfl
  refine ⟨fun j => softmaxRows_nonneg _ i j, ?_, fun c => ?_⟩
  · have h := softmaxRows_row_sum (maskStep (scaledSims d_model w eq ek) mask)
      (by rw [hcols]; exact hk) i
    rw [hcols] at h
    exact h
  · show (∑ t ∈ Finset.range
        (softmaxRows (maskStep (scaledSims d_model w eq ek) mask)).cols, _) = _
    show (∑ t ∈ Finset.range (maskStep (scaledSims d_model w eq ek) mask).cols, _) = _
    rw [hcols]

/-- Witness for claim C7 at a concrete single-token input with zero
weights. -/
theorem attention_rows_are_convex_combinations_witness :
    (∀ j, 0 ≤ (attentionPercents 1 ⟨fun _ _ => 0, fun _ _ => 0, fun _ _ => 0⟩
      ⟨1, 1, fun _ _ => 0⟩ ⟨1, 1, fun _ _ => 0⟩ none).entry 0 j) ∧
    (∑ j ∈ Finset.range (⟨1, 1, fun _ _ => (0 : ℝ)⟩ : Tensor2).rows,
      (attentionPercents 1 ⟨fun _ _ => 0, fun _ _ => 0, fun _ _ => 0⟩
        ⟨1, 1, fun _ _ => 0⟩ ⟨1, 1, fun _ _ => 0⟩ none).entry 0 j) = 1 ∧
    (∀ c, (Attention.forward 1 ⟨fun _ _ => 0, fun _ _ => 0, fun _ _ => 0⟩
      ⟨1, 1, fun _ _ => 0⟩ ⟨1, 1, fun _ _ => 0⟩ ⟨1, 1, fun _ _ => 0⟩ none).entry 0 c =
      ∑ j ∈ Finset.range (⟨1, 1, fun _ _ => (0 : ℝ)⟩ : Tensor2).rows,
        (attentionPercents 1 ⟨fun _ _ => 0, fun _ _ => 0, fun _ _ => 0⟩
          ⟨1, 1, fun _ _ => 0⟩ ⟨1, 1, fun _ _ => 0⟩ none).entry 0 j *
        (linearNB 1 1 (fun _ _ => 0) ⟨1, 1, fun _ _ => 0⟩).entry j c) :=
  attention_rows_are_convex_combinations 1 ⟨fun _ _ => 0, fun _ _ => 0, fun _ _ => 0⟩
    ⟨1, 1, fun _ _ => 0⟩ ⟨1, 1, fun _ _ => 0⟩ ⟨1, 1, fun _ _ => 0⟩ none (by decide) 0

/-- The all-zero attention weights, used for concrete instances. -/
noncomputable def zeroW : AttnWeights :=
  ⟨fun _ _ => 0, fun _ _ => 0, fun _ _ => 0⟩

/-- A 2×2 all-zero input, used for concrete instances. -/
noncomputable def Z2 : Tensor2 := ⟨2, 2, fun _ _ => 0⟩

/-- Claim C2 (amended): the constructed causal mask is True exactly on the
pairs with j > i, and each suppressed pair's scaled similarity score is
replaced by the finite sentinel -1e9 before the softmax; consequently the
post-softmax weight of a query on a later position is strictly positive —
astronomically small for ordinary score magnitudes (and underflowing to 0
in float32), but not exactly zero. -/
theorem causal_mask_suppresses_future_positions
    (d_model L i j : ℕ) (w : AttnWeights) (X : Tensor2)
    (hij : i < j) (hjL : j < L) (hX : 1 ≤ X.rows) :
    (∀ a b, a < L → b < L → (causalMask L a b = true ↔ a < b)) ∧
    (maskedFill (scaledSims d_model w X X) (causalMask L)).entry i j = -(10 ^ 9 : ℝ) ∧
    0 < (attentionPercents d_model w X X (some (causalMask L))).entry i j := by
  have hmask : ∀ a b : ℕ, (causalMask L a b = true ↔ a < b) := by
    intro a b
    simp only [causalMask, trilEntry, onesEntry]
    split
    · simp; omega
    · simp; omega
  refine ⟨fun a b _ _ => hmask a b, ?_, ?_⟩
  · show (if causalMask L i j then _ else _) = _
    rw [if_pos ((hmask i j).mpr hij)]
  · apply div_pos (Real.exp_pos _)
    apply Finset.sum_pos (fun t _ => Real.exp_pos _)
    apply Finset.nonempty_range_iff.mpr
    show X.rows ≠ 0
    omega

/-- Witness for the amended claim C2 at a concrete 2-token input with zero
weights. -/
theorem causal_mask_suppresses_future_positions_witness :
    (∀ a b, a < 2 → b < 2 → (causalMask 2 a b = true ↔ a < b)) ∧
    (maskedFill (scaledSims 2 zeroW Z2 Z2) (causalMask 2)).entry 0 1 = -(10 ^ 9 : ℝ) ∧
    0 < (attentionPercents 2 zeroW Z2 Z2 (some (causalMask 2))).entry 0 1 :=
  causal_mask_suppresses_future_positions 2 2 0 1 zeroW Z2 (by decide) (by decide)
    (by decide)

/-- Claim C2 fails as stated: with the finite sentinel -1e9 the
post-softmax weight of query position 0 on the later position 1 is not
zero (here: a 2-token decoder self-attention with zero weights and zero
inputs). -/
theorem masked_attention_weight_nonzero_counterexample :
    (attentionPercents 2 zeroW Z2 Z2 (some (causalMask 2))).entry 0 1 ≠ 0 := by
  have h : 0 < (attentionPercents 2 zeroW Z2 Z2 (some (causalMask 2))).entry 0 1 := by
    apply div_pos (Real.exp_pos _)
    apply Finset.sum_pos (fun t _ => Real.exp_pos _)
    apply Finset.nonempty_range_iff.mpr
    show Z2.rows ≠ 0
    decide
  exact h.ne'

/-! ## Claims C6 and C3 -/

/-- Shared helper: successful `PositionEncoding.forward` on a
well-shaped embedding matrix, with its pointwise description. -/
theorem peForward_pointwise {d_model max_len : ℕ} {pe : Tensor2}
    (hpe : PositionEncoding.init d_model max_len = some pe)
    (E : Tensor2) (hErows : E.rows ≤ max_len) (hEcols : E.cols = d_model) :
    ∃ R, PositionEncoding.forward pe E = some R ∧ R.rows = E.rows ∧
      R.cols = d_model ∧
      ∀ p q, p < E.rows → q < d_model →
        R.entry p q = E.entry p q + pe.entry p q := by
  unfold PositionEncoding.init at hpe
  split at hpe
  case isFalse => cases hpe
  case isTrue =>
    cases hpe
    have hmin : min E.rows max_len = E.rows := by omega
    unfold PositionEncoding.forward tensorAdd sliceRows
    dsimp only
    rw [hmin]
    rw [if_pos ⟨Or.inl rfl, Or.inl hEcols⟩]
    refine ⟨_, rfl, ?_, ?_, ?_⟩
    · show (if E.rows = 1 then E.rows else E.rows) = E.rows
      split <;> rfl
    · show (if E.cols = 1 then d_model else E.cols) = d_model
      split
      · rfl
      · exact hEcols
    · intro p q hp hq
      dsimp only
      have hir : (if E.rows = 1 then 0 else p) = p := by split <;> omega
      have hic : (if E.cols = 1 then 0 else q) = q := by
        split
        · rename_i h; rw [hEcols] at h; omega
        · rfl
      have hdc : (if d_model = 1 then 0 else q) = q := by split <;> omega
      rw [hir, hic, hdc]

/-- Claim C6: for even `d_model ≥ 2` and `max_len ≥ 1`, the precomputed
table satisfies `pe[pos][2i] = sin(pos / 10000^(2i/d_model))` and
`pe[pos][2i+1] = cos(pos / 10000^(2i/d_model))`, and applying the encoder
to an embedding sequence of length `L ≤ max_len` (of width `d_model`)
returns the elementwise sum of the embeddings and the first `L` table
rows. -/
theorem position_encoding_table_and_apply
    (d_model max_len : ℕ) (pe : Tensor2)
    (hd2 : 2 ≤ d_model) (hde : d_model % 2 = 0) (hm : 1 ≤ max_len)
    (hpe : PositionEncoding.init d_model max_len = some pe) :
    (∀ pos i, pos < max_len → 2 * i < d_model →
      pe.entry pos (2 * i) =
        Real.sin ((pos : ℝ) / (10000 : ℝ) ^ (2 * (i : ℝ) / (d_model : ℝ))) ∧
      pe.entry pos (2 * i + 1) =
        Real.cos ((pos : ℝ) / (10000 : ℝ) ^ (2 * (i : ℝ) / (d_model : ℝ)))) ∧
    (∀ E : Tensor2, E.rows ≤ max_len → E.cols = d_model →
      ∃ R, PositionEncoding.forward pe E = some R ∧ R.rows = E.rows ∧
        R.cols = d_model ∧
        ∀ p q, p < E.rows → q < d_model →
          R.entry p q = E.entry p q + pe.entry p q) := by
  refine ⟨?_, fun E hErows hEcols => peForward_pointwise hpe E hErows hEcols⟩
  unfold PositionEncoding.init at hpe
  rw [if_pos hde] at hpe
  cases hpe
  · intro pos i hpos hi
    have h1 : 2 * i % 2 = 0 := by omega
    have h2 : 2 * i / 2 = i := by omega
    have h3 : ¬((2 * i + 1) % 2 = 0) := by omega
    have h4 : (2 * i + 1) / 2 = i := by omega
    have hdt : div_term d_model i =
        (10000 : ℝ) ^ (2 * (i : ℝ) / (d_model : ℝ)) := by
      unfold div_term
      norm_num
    constructor
    · show (if 2 * i % 2 = 0 then _ else _) = _
      rw [if_pos h1, h2, hdt]
    · show (if (2 * i + 1) % 2 = 0 then _ else _) = _
      rw [if_neg h3, h4, hdt]

/-- The position-encoding table for `d_model = 2`, `max_len = 6` (the
configuration used by all three notebooks), written out explicitly. -/
noncomputable def pe26 : Tensor2 :=
  ⟨6, 2, fun pos j =>
    if j % 2 = 0 then Real.sin ((pos : ℝ) / div_term 2 (j / 2))
    else Real.cos ((pos : ℝ) / div_term 2 (j / 2))⟩

/-- Witness for claim C6 at `d_model = 2`, `max_len = 6`. -/
theorem position_encoding_table_and_apply_witness :
    (∀ pos i, pos < 6 → 2 * i < 2 →
      pe26.entry pos (2 * i) =
        Real.sin ((pos : ℝ) / (10000 : ℝ) ^ (2 * (i : ℝ) / (2 : ℝ))) ∧
      pe26.entry pos (2 * i + 1) =
        Real.cos ((pos : ℝ) / (10000 : ℝ) ^ (2 * (i : ℝ) / (2 : ℝ)))) ∧
    (∀ E : Tensor2, E.rows ≤ 6 → E.cols = 2 →
      ∃ R, PositionEncoding.forward pe26 E = some R ∧ R.rows = E.rows ∧
        R.cols = 2 ∧
        ∀ p q, p < E.rows → q < 2 →
          R.entry p q = E.entry p q + pe26.entry p q) := by
  have h := position_encoding_table_and_apply 2 6 pe26 (by norm_num) (by norm_num)
    (by norm_num) (by rfl)
  exact_mod_cast h

/-- Claim C3 (amended): `PositionEncoding.forward` succeeds on every valid
input, but its failure condition is exactly torch's broadcasting rule:
it fails iff `L > max_len` with `max_len ≠ 1`, or the embedding width is
neither `d_model` nor 1 (with `d_model ≠ 1`).  In particular a width-1 or
`max_len = 1` mismatch broadcasts and succeeds instead of raising a
`ShapeError`. -/
theorem position_encoder_failure_is_broadcast_shaped
    (d_model max_len : ℕ) (pe E : Tensor2)
    (hd : 1 ≤ d_model) (hm : 1 ≤ max_len)
    (hpe : PositionEncoding.init d_model max_len = some pe) :
    (PositionEncoding.forward pe E).isSome = true ↔
      ((E.rows ≤ max_len ∨ max_len = 1) ∧
       (E.cols = d_model ∨ E.cols = 1 ∨ d_model = 1)) := by
  obtain ⟨hr, hc⟩ := PositionEncoding.init_shape hpe
  unfold PositionEncoding.forward tensorAdd sliceRows
  rw [hr, hc]
  split
  · rename_i h
    simp only [Option.isSome_some, true_iff]
    dsimp only at h
    omega
  · rename_i h
    simp only [Option.isSome_none, Bool.false_eq_true, false_iff]
    dsimp only at h
    omega

/-- Witness for the amended claim C3: a 3×2 embedding with `d_model = 2`,
`max_len = 6` satisfies the broadcast condition, hence succeeds. -/
theorem position_encoder_failure_is_broadcast_shaped_witness :
    (PositionEncoding.forward pe26 ⟨3, 2, fun _ _ => 5⟩).isSome = true ↔
      (((⟨3, 2, fun _ _ => (5 : ℝ)⟩ : Tensor2).rows ≤ 6 ∨ 6 = 1) ∧
       ((⟨3, 2, fun _ _ => (5 : ℝ)⟩ : Tensor2).cols = 2 ∨
        (⟨3, 2, fun _ _ => (5 : ℝ)⟩ : Tensor2).cols = 1 ∨ 2 = 1)) :=
  position_encoder_failure_is_broadcast_shaped 2 6 pe26 ⟨3, 2, fun _ _ => 5⟩
    (by norm_num) (by norm_num) (by rfl)

/-- Claim C3 fails as stated: an embedding sequence of width 1 — different
from `d_model = 2` — broadcasts against the table and `forward` succeeds,
instead of failing as the claim requires. -/
theorem position_encoder_width_mismatch_succeeds :
    ((⟨1, 1, fun _ _ => (5 : ℝ)⟩ : Tensor2).cols ≠ 2) ∧
    (PositionEncoding.forward pe26 ⟨1, 1, fun _ _ => 5⟩).isSome = true := by
  exact ⟨by decide, rfl⟩

/-! ## Claim C9 -/

theorem tensorAdd_some_dims {A B R : Tensor2} (h : tensorAdd A B = some R) :
    R.rows = (if A.rows = 1 then B.rows else A.rows) ∧
    R.cols = (if A.cols = 1 then B.cols else A.cols) := by
  unfold tensorAdd at h
  split at h
  · cases h; exact ⟨rfl, rfl⟩
  · cases h

theorem tensorAdd_some_of_dims {A B : Tensor2} (hr : A.rows = B.rows)
    (hc : A.cols = B.cols) : ∃ R, tensorAdd A B = some R := by
  unfold tensorAdd
  rw [if_pos ⟨Or.inl hr, Or.inl hc⟩]
  exact ⟨_, rfl⟩

theorem attention_forward_rows (d_model : ℕ) (w : AttnWeights) (eq ek ev : Tensor2)
    (mask : Option (ℕ → ℕ → Bool)) :
    (Attention.forward d_model w eq ek ev mask).rows = eq.rows := by
  cases mask <;> rfl

theorem foldl_hcat_rows (ts : List Tensor2) :
    ∀ t : Tensor2, (ts.foldl hcat t).rows = t.rows := by
  induction ts with
  | nil => intro t; rfl
  | cons s ts ih => intro t; exact ih (hcat t s)

theorem mha_rows (d_model : ℕ) (heads : List AttnWeights)
    (fcW : ℕ → ℕ → ℝ) (fcB : ℕ → ℝ) (eq ek ev : Tensor2)
    (mask : Option (ℕ → ℕ → Bool)) :
    (MultiHeadAttention.forward d_model heads fcW fcB eq ek ev mask).rows = eq.rows := by
  unfold MultiHeadAttention.forward
  cases heads with
  | nil => rfl
  | cons h hs =>
    show ((hs.map _).foldl hcat (Attention.forward d_model h eq ek ev mask)).rows = _
    rw [foldl_hcat_rows]
    exact attention_forward_rows d_model h eq ek ev mask

/-- Claim C9: with the positional table built for `max_len` and any
`d_model ≥ 1`, `EncoderOnlyTransformer.forward` is defined exactly on
token sequences of length `max_len`: the flattened residual (length
`L·d_model`) is fed to the classification layer of fixed input width
`max_len·d_model`, so shorter (or longer) inputs fail instead of being
padded or accepted. -/
theorem encoder_only_forward_defined_iff_full_length
    (p : EncOnlyParams) (token_ids : List ℕ)
    (hd : 1 ≤ p.d_model)
    (hpe : PositionEncoding.init p.d_model p.max_len = some p.pe)
    (hm : 1 ≤ p.max_len) :
    (EncoderOnlyTransformer.forward p token_ids).isSome = true ↔
      token_ids.length = p.max_len := by
  obtain ⟨hr, hc⟩ := PositionEncoding.init_shape hpe
  constructor
  · intro hs
    simp only [EncoderOnlyTransformer.forward] at hs
    cases hpf : PositionEncoding.forward p.pe (embed p.we p.d_model token_ids) with
    | none => rw [hpf] at hs; cases hs
    | some P =>
      rw [hpf] at hs
      dsimp only at hs
      have hPdims := tensorAdd_some_dims hpf
      have hProws : P.rows = token_ids.length := by
        rcases hPdims with ⟨h1, _⟩
        show P.rows = (embed p.we p.d_model token_ids).rows
        rw [h1]
        show (if (embed p.we p.d_model token_ids).rows = 1 then
          min (embed p.we p.d_model token_ids).rows p.pe.rows else _) = _
        split
        · rename_i hone; rw [hone]; omega
        · rfl
      have hPcols : P.cols = p.d_model := by
        rcases hPdims with ⟨_, h2⟩
        rw [h2]
        show (if (embed p.we p.d_model token_ids).cols = 1 then p.pe.cols else
          (embed p.we p.d_model token_ids).cols) = p.d_model
        show (if p.d_model = 1 then p.pe.cols else p.d_model) = p.d_model
        split
        · exact hc
        · rfl
      set sav := MultiHeadAttention.forward p.d_model p.heads p.mhaFcW p.mhaFcB
        P P P none with hsav
      cases hadd : tensorAdd P sav with
      | none => rw [hadd] at hs; dsimp only at hs; cases hs
      | some R =>
        rw [hadd] at hs
        dsimp only at hs
        have hRdims := tensorAdd_some_dims hadd
        have hsavrows : sav.rows = P.rows := mha_rows _ _ _ _ _ _ _ _
        have hRrows : R.rows = token_ids.length := by
          rcases hRdims with ⟨h1, _⟩
          rw [h1]
          split
          · rw [hsavrows, hProws]
          · exact hProws
        have hRcols : R.cols = p.d_model := by
          rcases hRdims with ⟨_, h2⟩
          rw [h2]
          split
          · show sav.cols = p.d_model; rfl
          · exact hPcols
        unfold linear1d at hs
        split at hs
        · rename_i hlen
          have hfl : (flattenT R).2 = R.rows * R.cols := rfl
          rw [hfl, hRrows, hRcols] at hlen
          exact Nat.eq_of_mul_eq_mul_right (by omega) hlen
        · cases hs
  · intro hlen
    simp only [EncoderOnlyTransformer.forward]
    have hcond : ((embed p.we p.d_model token_ids).rows =
        (sliceRows p.pe (embed p.we p.d_model token_ids).rows).rows ∨
        (embed p.we p.d_model token_ids).rows = 1 ∨
        (sliceRows p.pe (embed p.we p.d_model token_ids).rows).rows = 1) ∧
        ((embed p.we p.d_model token_ids).cols =
        (sliceRows p.pe (embed p.we p.d_model token_ids).rows).cols ∨
        (embed p.we p.d_model token_ids).cols = 1 ∨
        (sliceRows p.pe (embed p.we p.d_model token_ids).rows).cols = 1) := by
      constructor
      · left
        show token_ids.length = min token_ids.length p.pe.rows
        rw [hr, hlen]
        omega
      · left
        show p.d_model = p.pe.cols
        rw [hc]
    obtain ⟨P, hpf⟩ : ∃ P, PositionEncoding.forward p.pe
        (embed p.we p.d_model token_ids) = some P := by
      unfold PositionEncoding.forward tensorAdd
      rw [if_pos hcond]
      exact ⟨_, rfl⟩
    rw [hpf]
    have hPdims := tensorAdd_some_dims hpf
    have hProws : P.rows = token_ids.length := by
      rcases hPdims with ⟨h1, _⟩
      rw [h1]
      show (if token_ids.length = 1 then min token_ids.length p.pe.rows else
        token_ids.length) = token_ids.length
      split
      · rename_i hone; rw [hone]; omega
      · rfl
    have hPcols : P.cols = p.d_model := by
      rcases hPdims with ⟨_, h2⟩
      rw [h2]
      show (if p.d_model = 1 then p.pe.cols else p.d_model) = p.d_model
      split
      · exact hc
      · rfl
    set sav := MultiHeadAttention.forward p.d_model p.heads p.mhaFcW p.mhaFcB
      P P P none with hsav
    have hsavrows : sav.rows = P.rows := mha_rows _ _ _ _ _ _ _ _
    have hsavcols : sav.cols = p.d_model := rfl
    obtain ⟨R, hadd⟩ := tensorAdd_some_of_dims (A := P) (B := sav)
      (by rw [hsavrows]) (by rw [hsavcols, hPcols])
    dsimp only
    rw [hadd]
    dsimp only
    have hRdims := tensorAdd_some_dims hadd
    have hRrows : R.rows = token_ids.length := by
      rcases hRdims with ⟨h1, _⟩
      rw [h1]
      split
      · rw [hsavrows, hProws]
      · exact hProws
    have hRcols : R.cols = p.d_model := by
      rcases hRdims with ⟨_, h2⟩
      rw [h2]
      split
      · exact hsavcols
      · exact hPcols
    unfold linear1d
    rw [if_pos]
    · rfl
    · show (flattenT R).2 = p.max_len * p.d_model
      show R.rows * R.cols = p.max_len * p.d_model
      rw [hRrows, hRcols, hlen]

/-- A concrete encoder-only configuration (`d_model = 2`, `max_len = 6`,
two zero-initialised heads), used for the witness. -/
noncomputable def encP : EncOnlyParams :=
  ⟨2, 6, fun _ _ => 0, pe26, [zeroW, zeroW], fun _ _ => 0, fun _ => 0,
   fun _ _ => 0, fun _ => 0⟩

/-- Witness for claim C9: the full-length 6-token input from the notebook
is accepted. -/
theorem encoder_only_forward_defined_iff_full_length_witness :
    (EncoderOnlyTransformer.forward encP [0, 1, 2, 11, 11, 11]).isSome = true ↔
      ([0, 1, 2, 11, 11, 11] : List ℕ).length = encP.max_len :=
  encoder_only_forward_defined_iff_full_length encP [0, 1, 2, 11, 11, 11]
    (by decide) (by rfl) (by decide)

/-! ## Claim C10 -/

theorem whereEqSOS_cons (a : ℕ) (l : List ℕ) :
    whereEqSOS (a :: l) =
      (if a = 0 then [0] else []) ++ (whereEqSOS l).map Nat.succ := by
  unfold whereEqSOS
  rw [List.length_cons, List.range_succ_eq_map, List.filter_cons]
  have hmap : List.filter (fun i => (a :: l).getD i 1 == 0)
      ((List.range l.length).map Nat.succ) =
      ((List.range l.length).filter fun i => l.getD i 1 == 0).map Nat.succ := by
    rw [List.filter_map]
    have hco : ((fun i => (a :: l).getD i 1 == 0) ∘ Nat.succ) =
        (fun i => l.getD i 1 == 0) := by
      funext i
      simp [List.getD_cons_succ]
    rw [hco]
  rw [hmap]
  by_cases h : a = 0
  · simp [h]
  · simp [h]

theorem whereEqSOS_length (l : List ℕ) : (whereEqSOS l).length = l.count 0 := by
  induction l with
  | nil => rfl
  | cons a l ih =>
    rw [whereEqSOS_cons]
    simp only [List.length_append, List.length_map, ih, List.count_cons]
    by_cases h : a = 0
    · simp [h]
      omega
    · simp [h]

theorem whereEqSOS_mem {l : List ℕ} {e : ℕ} (h : e ∈ whereEqSOS l) :
    e < l.length ∧ l.getD e 1 = 0 := by
  unfold whereEqSOS at h
  rw [List.mem_filter] at h
  obtain ⟨h1, h2⟩ := h
  exact ⟨List.mem_range.mp h1, by simpa using h2⟩

/-- Claim C10: `Transformer.forward` is defined only when exactly one
position of its input holds the `<SOS>` id 0 (`.item()` on the index
tensor raises otherwise); at that unique position it splits the sequence —
the prefix goes to the encoder, the rest (starting with `<SOS>`) to the
decoder, keys and values being the encoder output. -/
theorem transformer_forward_splits_at_unique_sos
    (p : TransformerParams) (token_ids : List ℕ) :
    (token_ids.count 0 ≠ 1 → Transformer.forward p token_ids = none) ∧
    (token_ids.count 0 = 1 → ∃ e, e < token_ids.length ∧ token_ids.getD e 1 = 0 ∧
      Transformer.forward p token_ids = Transformer.body p token_ids e) := by
  constructor
  · intro hcnt
    have hlen : (whereEqSOS token_ids).length ≠ 1 := by
      rw [whereEqSOS_length]; exact hcnt
    unfold Transformer.forward
    rcases hW : whereEqSOS token_ids with _ | ⟨e, _ | ⟨e2, rest⟩⟩
    · rfl
    · rw [hW] at hlen; simp at hlen
    · rfl
  · intro hcnt
    have hlen : (whereEqSOS token_ids).length = 1 := by
      rw [whereEqSOS_length]; exact hcnt
    rcases hW : whereEqSOS token_ids with _ | ⟨e, _ | ⟨e2, rest⟩⟩
    · rw [hW] at hlen; simp at hlen
    · have hmem := whereEqSOS_mem (l := token_ids) (e := e) (by rw [hW]; exact List.mem_singleton.mpr rfl)
      refine ⟨e, hmem.1, hmem.2, ?_⟩
      unfold Transformer.forward
      rw [hW]
    · rw [hW] at hlen; simp at hlen

/-- A concrete encoder–decoder configuration with zero weights, used for
the witness. -/
noncomputable def tparams : TransformerParams :=
  ⟨6, 2, 5, fun _ _ => 0, pe26, zeroW, fun _ _ => 0, pe26, zeroW, zeroW,
   fun _ _ => 0, fun _ => 0⟩

/-- Witness for claim C10: the sequence `[5, 0, 3]` holds `<SOS>` exactly
once (at position 1), and `forward` runs the split there. -/
theorem transformer_forward_splits_at_unique_sos_witness :
    ∃ e, e < ([5, 0, 3] : List ℕ).length ∧ ([5, 0, 3] : List ℕ).getD e 1 = 0 ∧
      Transformer.forward tparams [5, 0, 3] = Transformer.body tparams [5, 0, 3] e :=
  (transformer_forward_splits_at_unique_sos tparams [5, 0, 3]).2 (by decide)

/-! ### DecoderOnlyTransformer (DecoderOnlyTrans.ipynb), for completeness -/

/-- The trainable state of `DecoderOnlyTransformer`. -/
structure DecOnlyParams where
  num_tokens : ℕ
  d_model : ℕ
  max_len : ℕ
  we : ℕ → ℕ → ℝ
  pe : Tensor2
  attention : AttnWeights
  fcW : ℕ → ℕ → ℝ
  fcB : ℕ → ℝ

/-- The method `DecoderOnlyTransformer.forward`: embed, add position encodings, build
the causal mask `torch.tril(torch.ones(L, L)) == 0`, masked self-attention
(via the decoder-only `Attention.forward`), residual add, and the `fc`
projection to vocabulary logits. -/
noncomputable def DecoderOnlyTransformer.forward (p : DecOnlyParams)
    (token_ids : List ℕ) : Option Tensor2 :=
  let word_embeddings := embed p.we p.d_model token_ids
  match PositionEncoding.forward p.pe word_embeddings with
  | none => none
  | some position_encoded =>
    let mask := causalMask token_ids.length
    match DecAttention.forward p.d_model p.attention
        position_encoded position_encoded position_encoded (some mask) with
    | none => none
    | some self_attention_values =>
      match tensorAdd position_encoded self_attention_values with
      | none => none
      | some residual_connection_values =>
        some (linearB p.d_model p.num_tokens p.fcW p.fcB residual_connection_values)

/-! ## Claim C1 -/

/-- The identity projection matrix (a concrete weight setting). -/
noncomputable def idW : ℕ → ℕ → ℝ := fun i j => if i = j then 1 else 0

/-- Attention weights with all three projections the identity. -/
noncomputable def idAttn : AttnWeights := ⟨idW, idW, idW⟩

/-- A word-embedding table sending every token id to the vector (1, 0). -/
noncomputable def exWe : ℕ → ℕ → ℝ := fun _ j => if j = 0 then 1 else 0

/-- A concrete 2×2 encoder output used as cross-attention keys and values:
rows (1, 0) and (0, 0). -/
noncomputable def exKV : Tensor2 := ⟨2, 2, fun i j => if i = 0 ∧ j = 0 then 1 else 0⟩

theorem attention_forward_cols (d_model : ℕ) (w : AttnWeights) (eq ek ev : Tensor2)
    (mask : Option (ℕ → ℕ → Bool)) :
    (Attention.forward d_model w eq ek ev mask).cols = d_model := rfl

theorem tensorAdd_some_entry {A B R : Tensor2} (h : tensorAdd A B = some R)
    (hr : B.rows = A.rows) (hc : B.cols = A.cols) (i j : ℕ)
    (hi : i < A.rows) (hj : j < A.cols) :
    R.entry i j = A.entry i j + B.entry i j := by
  unfold tensorAdd at h
  split at h
  · cases h
    dsimp only
    have h1 : (if A.rows = 1 then 0 else i) = i := by split <;> omega
    have h2 : (if A.cols = 1 then 0 else j) = j := by split <;> omega
    have h3 : (if B.rows = 1 then 0 else i) = i := by rw [hr]; split <;> omega
    have h4 : (if B.cols = 1 then 0 else j) = j := by rw [hc]; split <;> omega
    rw [h1, h2, h3, h4]
  · cases h

theorem idW_linear_entry (X : Tensor2) (i o : ℕ) (ho : o < 2) :
    (linearNB 2 2 idW X).entry i o = X.entry i o := by
  show (∑ t ∈ Finset.range 2, X.entry i t * idW o t) = X.entry i o
  rw [Finset.sum_range_succ, Finset.sum_range_succ, Finset.sum_range_zero]
  unfold idW
  interval_cases o <;> norm_num

/-- Attention with a single key/value row: the softmax over one key is 1,
so the output row is the projected value row, whatever the scores and the
mask. -/
theorem attention_single_key_row_entry (d_model : ℕ) (w : AttnWeights)
    (Q Kv : Tensor2) (mask : Option (ℕ → ℕ → Bool)) (hrows : Kv.rows = 1)
    (j : ℕ) :
    (Attention.forward d_model w Q Kv Kv mask).entry 0 j =
      (linearNB d_model d_model w.Wv Kv).entry 0 j := by
  have hcols : (maskStep (scaledSims d_model w Q Kv) mask).cols = Kv.rows := by
    rw [maskStep_cols]; rfl
  have hp : (attentionPercents d_model w Q Kv mask).entry 0 0 = 1 := by
    show Real.exp _ /
      (∑ t ∈ Finset.range (maskStep (scaledSims d_model w Q Kv) mask).cols,
        Real.exp ((maskStep (scaledSims d_model w Q Kv) mask).entry 0 t)) = 1
    rw [hcols, hrows, Finset.sum_range_one]
    exact div_self (Real.exp_ne_zero _)
  show (∑ t ∈ Finset.range (maskStep (scaledSims d_model w Q Kv) mask).cols,
      (attentionPercents d_model w Q Kv mask).entry 0 t *
      (linearNB d_model d_model w.Wv Kv).entry t j) = _
  rw [hcols, hrows, Finset.sum_range_one, hp, one_mul]

/-- Cross-attention against the concrete keys/values `exKV` with identity
projections: with keys (1,0) and (0,0), the query row (q0, q1) scores
q0/√2 on key 0 and 0 on key 1, so the output's first coordinate is the
softmax weight exp(q0/√2) / (exp(q0/√2) + 1). -/
theorem cross_attention_exKV_entry (Q : Tensor2) :
    (Attention.forward 2 idAttn Q exKV exKV none).entry 0 0 =
      Real.exp (Q.entry 0 0 / Real.sqrt 2) /
        (Real.exp (Q.entry 0 0 / Real.sqrt 2) + 1) := by
  simp only [Attention.forward, attentionPercents, maskStep, softmaxRows,
    scaledSims, matmul, matmulT, divScalar, linearNB, idAttn, idW, exKV]
  norm_num [Finset.sum_range_succ, Real.exp_zero]

/-- Strict monotonicity of x ↦ exp x / (exp x + 1). -/
theorem sigmoid_lt {a b : ℝ} (h : a < b) :
    Real.exp a / (Real.exp a + 1) < Real.exp b / (Real.exp b + 1) := by
  rw [div_lt_div_iff₀ (by positivity) (by positivity)]
  nlinarith [Real.exp_lt_exp.mpr h, Real.exp_pos a, Real.exp_pos b]

/-- Shared helper: the full plumbing of `Decoder.forward` and of the
spec-described variant `DecoderSpec.forward` on a decoder input of length
`≤ max_len`: the position-encoded matrix `P`, the masked self-attention
residual `R`, and both final outputs, described pointwise.  The only
difference between the two pipelines is the query input of the
cross-attention: `P` in the code, `R` in the spec's sentence. -/
theorem decoder_forwards_entry (d_model max_len : ℕ) (we : ℕ → ℕ → ℝ)
    (pe : Tensor2) (sa ca : AttnWeights) (token_ids : List ℕ) (K V : Tensor2)
    (hpe : PositionEncoding.init d_model max_len = some pe)
    (hL : token_ids.length ≤ max_len) :
    ∃ P R O Os : Tensor2,
      PositionEncoding.forward pe (embed we d_model token_ids) = some P ∧
      P.rows = token_ids.length ∧ P.cols = d_model ∧
      (∀ i j, i < token_ids.length → j < d_model →
        P.entry i j = we (token_ids.getD i 0) j + pe.entry i j) ∧
      tensorAdd P (Attention.forward d_model sa P P P
        (some (causalMask token_ids.length))) = some R ∧
      (∀ i j, i < token_ids.length → j < d_model →
        R.entry i j = P.entry i j + (Attention.forward d_model sa P P P
          (some (causalMask token_ids.length))).entry i j) ∧
      Decoder.forward d_model we pe sa ca token_ids K V = some O ∧
      (∀ i j, i < token_ids.length → j < d_model →
        O.entry i j = (Attention.forward d_model ca P K V none).entry i j +
          R.entry i j) ∧
      DecoderSpec.forward d_model we pe sa ca token_ids K V = some Os ∧
      (∀ i j, i < token_ids.length → j < d_model →
        Os.entry i j = (Attention.forward d_model ca R K V none).entry i j +
          R.entry i j) := by
  obtain ⟨P, hP, hProws, hPcols, hPentry⟩ := peForward_pointwise hpe
    (embed we d_model token_ids) hL rfl
  have hsavrows : (Attention.forward d_model sa P P P
      (some (causalMask token_ids.length))).rows = P.rows :=
    attention_forward_rows _ _ _ _ _ _
  have hsavcols : (Attention.forward d_model sa P P P
      (some (causalMask token_ids.length))).cols = d_model := rfl
  obtain ⟨R, hR⟩ := tensorAdd_some_of_dims (A := P)
    (B := Attention.forward d_model sa P P P (some (causalMask token_ids.length)))
    hsavrows.symm (by rw [hsavcols, hPcols])
  have hRdims := tensorAdd_some_dims hR
  have hRrows : R.rows = token_ids.length := by
    rcases hRdims with ⟨h1, _⟩
    rw [h1]
    split
    · rw [hsavrows, hProws]; rfl
    · exact hProws
  have hRcols : R.cols = d_model := by
    rcases hRdims with ⟨_, h2⟩
    rw [h2]
    split
    · exact hsavcols
    · exact hPcols
  have hRentry : ∀ i j, i < token_ids.length → j < d_model →
      R.entry i j = P.entry i j + (Attention.forward d_model sa P P P
        (some (causalMask token_ids.length))).entry i j := by
    intro i j hi hj
    exact tensorAdd_some_entry hR hsavrows (by rw [hsavcols, hPcols]) i j
      (by rw [hProws]; exact hi) (by rw [hPcols]; exact hj)
  have hcavrows : (Attention.forward d_model ca P K V none).rows = P.rows :=
    attention_forward_rows _ _ _ _ _ _
  have hcavcols : (Attention.forward d_model ca P K V none).cols = d_model := rfl
  obtain ⟨O, hO⟩ := tensorAdd_some_of_dims
    (A := Attention.forward d_model ca P K V none) (B := R)
    (by rw [hcavrows, hProws, hRrows]; rfl) (by rw [hcavcols, hRcols])
  have hOentry : ∀ i j, i < token_ids.length → j < d_model →
      O.entry i j = (Attention.forward d_model ca P K V none).entry i j +
        R.entry i j := by
    intro i j hi hj
    exact tensorAdd_some_entry hO (by rw [hRrows, hcavrows, hProws]; rfl)
      (by rw [hRcols, hcavcols]) i j
      (by rw [hcavrows, hProws]; exact hi) (by rw [hcavcols]; exact hj)
  have hcsrows : (Attention.forward d_model ca R K V none).rows = R.rows :=
    attention_forward_rows _ _ _ _ _ _
  have hcscols : (Attention.forward d_model ca R K V none).cols = d_model := rfl
  obtain ⟨Os, hOs⟩ := tensorAdd_some_of_dims
    (A := Attention.forward d_model ca R K V none) (B := R)
    (by rw [hcsrows]) (by rw [hcscols, hRcols])
  have hOsentry : ∀ i j, i < token_ids.length → j < d_model →
      Os.entry i j = (Attention.forward d_model ca R K V none).entry i j +
        R.entry i j := by
    intro i j hi hj
    exact tensorAdd_some_entry hOs (by rw [hcsrows]) (by rw [hRcols, hcscols]) i j
      (by rw [hcsrows, hRrows]; exact hi) (by rw [hcscols]; exact hj)
  have hFwd : Decoder.forward d_model we pe sa ca token_ids K V = some O := by
    simp only [Decoder.forward]
    rw [hP]
    dsimp only
    rw [hR]
    dsimp only
    exact hO
  have hFwdS : DecoderSpec.forward d_model we pe sa ca token_ids K V = some Os := by
    simp only [DecoderSpec.forward]
    rw [hP]
    dsimp only
    rw [hR]
    dsimp only
    exact hOs
  exact ⟨P, R, O, Os, hP, hProws, hPcols, hPentry, hR, hRentry, hFwd, hOentry,
    hFwdS, hOsentry⟩

/-- Claim C1 (amended): `Decoder.forward` computes, in order: embed the
decoder tokens, add positional encoding (pointwise `P`), causally masked
self-attention, residual add (`R = P + selfattn`), then cross-attention
whose *query input is the positional-encoded matrix `P`* (not the
self-attention residual output) and whose key/value inputs are the encoder
outputs with no mask, then a second residual add onto the self-attention
residual output `R`, and returns the result. -/
theorem decoder_block_composition
    (d_model max_len : ℕ) (we : ℕ → ℕ → ℝ) (pe : Tensor2)
    (sa ca : AttnWeights) (token_ids : List ℕ) (K V : Tensor2)
    (hpe : PositionEncoding.init d_model max_len = some pe)
    (hL : token_ids.length ≤ max_len) :
    ∃ P R O : Tensor2,
      PositionEncoding.forward pe (embed we d_model token_ids) = some P ∧
      P.rows = token_ids.length ∧ P.cols = d_model ∧
      (∀ i j, i < token_ids.length → j < d_model →
        P.entry i j = we (token_ids.getD i 0) j + pe.entry i j) ∧
      tensorAdd P (Attention.forward d_model sa P P P
        (some (causalMask token_ids.length))) = some R ∧
      (∀ i j, i < token_ids.length → j < d_model →
        R.entry i j = P.entry i j + (Attention.forward d_model sa P P P
          (some (causalMask token_ids.length))).entry i j) ∧
      Decoder.forward d_model we pe sa ca token_ids K V = some O ∧
      (∀ i j, i < token_ids.length → j < d_model →
        O.entry i j = (Attention.forward d_model ca P K V none).entry i j +
          R.entry i j) := by
  obtain ⟨P, R, O, Os, h1, h2, h3, h4, h5, h6, h7, h8, _, _⟩ :=
    decoder_forwards_entry d_model max_len we pe sa ca token_ids K V hpe hL
  exact ⟨P, R, O, h1, h2, h3, h4, h5, h6, h7, h8⟩

/-- Witness for the amended claim C1 at the concrete single-token decoder
input `[0]` with identity attention weights. -/
theorem decoder_block_composition_witness :
    ∃ P R O : Tensor2,
      PositionEncoding.forward pe26 (embed exWe 2 [0]) = some P ∧
      P.rows = ([0] : List ℕ).length ∧ P.cols = 2 ∧
      (∀ i j, i < ([0] : List ℕ).length → j < 2 →
        P.entry i j = exWe (([0] : List ℕ).getD i 0) j + pe26.entry i j) ∧
      tensorAdd P (Attention.forward 2 idAttn P P P
        (some (causalMask ([0] : List ℕ).length))) = some R ∧
      (∀ i j, i < ([0] : List ℕ).length → j < 2 →
        R.entry i j = P.entry i j + (Attention.forward 2 idAttn P P P
          (some (causalMask ([0] : List ℕ).length))).entry i j) ∧
      Decoder.forward 2 exWe pe26 idAttn idAttn [0] exKV exKV = some O ∧
      (∀ i j, i < ([0] : List ℕ).length → j < 2 →
        O.entry i j = (Attention.forward 2 idAttn P exKV exKV none).entry i j +
          R.entry i j) :=
  decoder_block_composition 2 6 exWe pe26 idAttn idAttn [0] exKV exKV
    (by rfl) (by decide)

/-- Claim C1 fails as stated: the cross-attention query input of
`Decoder.forward` is the positional-encoded matrix, not the self-attention
residual output.  At the concrete single-token input `[0]` with identity
weights and encoder keys (1,0)/(0,0), the code's output differs from the
spec-described pipeline (`DecoderSpec.forward`): the query rows (1,1) and
(2,2) give cross-attention weights exp(1/√2)/(exp(1/√2)+1) and
exp(2/√2)/(exp(2/√2)+1), which differ by strict monotonicity of the
sigmoid. -/
theorem decoder_cross_attention_query_is_not_residual :
    Decoder.forward 2 exWe pe26 idAttn idAttn [0] exKV exKV ≠
      DecoderSpec.forward 2 exWe pe26 idAttn idAttn [0] exKV exKV := by
  obtain ⟨P, R, O, Os, hP, hProws, hPcols, hPentry, hR, hRentry, hO, hOentry,
    hOs, hOsentry⟩ :=
    decoder_forwards_entry 2 6 exWe pe26 idAttn idAttn [0] exKV exKV
      (by rfl) (by decide)
  have hP1 : P.rows = 1 := by rw [hProws]; rfl
  have h00 : P.entry 0 0 = 1 := by
    rw [hPentry 0 0 (by decide) (by norm_num)]
    norm_num [exWe, pe26, div_term, Real.sin_zero]
  have hsav : ∀ j, j < 2 → (Attention.forward 2 idAttn P P P
      (some (causalMask ([0] : List ℕ).length))).entry 0 j = P.entry 0 j := by
    intro j hj
    rw [attention_single_key_row_entry 2 idAttn P P _ hP1 j]
    exact idW_linear_entry P 0 j hj
  have hR00 : R.entry 0 0 = 2 := by
    rw [hRentry 0 0 (by decide) (by norm_num), hsav 0 (by norm_num), h00]
    norm_num
  intro hEq
  rw [hO, hOs] at hEq
  injection hEq with hOOs
  have hOv := hOentry 0 0 (by decide) (by norm_num)
  have hOsv := hOsentry 0 0 (by decide) (by norm_num)
  rw [hOOs] at hOv
  have hcontra : (Attention.forward 2 idAttn P exKV exKV none).entry 0 0 =
      (Attention.forward 2 idAttn R exKV exKV none).entry 0 0 := by
    linarith [hOv, hOsv]
  rw [cross_attention_exKV_entry P, cross_attention_exKV_entry R, h00, hR00]
    at hcontra
  have hs2 : (0 : ℝ) < Real.sqrt 2 := Real.sqrt_pos.mpr (by norm_num)
  have hlt : (1 : ℝ) / Real.sqrt 2 < 2 / Real.sqrt 2 := by
    rw [div_lt_div_iff₀ hs2 hs2]
    nlinarith [hs2]
  exact absurd hcontra (ne_of_lt (sigmoid_lt hlt))
